import Mathlib

/-!
Verification of the intracare_rcm_chatbot ingestion-and-retrieval pipeline.

Python strings are modelled as `List Char`; the opaque external services
(OpenAI embeddings / completions, Pinecone index calls, `hashlib.md5`) are
modelled as oracle functions supplied in environment records, and a Python
call that may raise is modelled as `Except String`.
-/

set_option autoImplicit false

namespace IntracareRcm

/-- Whitespace test used by Python `str.split()` / `str.strip()`
(`Char.isWhitespace` covers space, tab, CR and LF; the exact extent of the
whitespace class plays no role in the claims). -/
def isSpace (c : Char) : Bool := c.isWhitespace

/-- Accumulator-based scanner behind `splitWords`: `acc` holds the
(reversed) characters of the word currently being read. -/
def splitWordsAux : List Char → List Char → List (List Char)
  | [], acc => if acc.isEmpty then [] else [acc.reverse]
  | c :: cs, acc =>
    if isSpace c then
      if acc.isEmpty then splitWordsAux cs []
      else acc.reverse :: splitWordsAux cs []
    else splitWordsAux cs (c :: acc)

/-- Model of Python `text.split()` (document_parser.py line 129): the maximal
whitespace-free runs of `text`, in order. -/
def splitWords (text : List Char) : List (List Char) := splitWordsAux text []

/-- Model of Python `' '.join(chunk_words)` (document_parser.py line 134). -/
def joinWords : List (List Char) → List Char
  | [] => []
  | [w] => w
  | w :: ws => w ++ ' ' :: joinWords ws

/-- Model of Python `str.strip()`: remove leading and trailing whitespace. -/
def trimChars (l : List Char) : List Char :=
  (((l.dropWhile isSpace).reverse.dropWhile isSpace).reverse)

/-- Every word produced by the scanner is non-empty and whitespace-free,
provided the running accumulator is whitespace-free. -/
theorem splitWordsAux_words_valid :
    ∀ (l acc : List Char), (∀ c ∈ acc, ¬ isSpace c = true) →
      ∀ w ∈ splitWordsAux l acc, w ≠ [] ∧ ∀ c ∈ w, ¬ isSpace c = true := by
  intro l
  induction l with
  | nil =>
    intro acc hacc w hw
    simp only [splitWordsAux] at hw
    split at hw
    · simp at hw
    · rename_i hne
      simp only [List.mem_singleton] at hw
      subst hw
      constructor
      · simp only [ne_eq, List.reverse_eq_nil_iff]
        intro h; subst h; simp [List.isEmpty] at hne
      · intro c hc
        exact hacc c (List.mem_reverse.mp hc)
  | cons c cs ih =>
    intro acc hacc w hw
    simp only [splitWordsAux] at hw
    split at hw
    · split at hw
      · exact ih [] (by simp) w hw
      · rename_i hne
        rcases List.mem_cons.mp hw with h | h
        · subst h
          constructor
          · simp only [ne_eq, List.reverse_eq_nil_iff]
            intro h; subst h; simp [List.isEmpty] at hne
          · intro x hx
            exact hacc x (List.mem_reverse.mp hx)
        · exact ih [] (by simp) w h
    · rename_i hcs
      refine ih (c :: acc) ?_ w hw
      intro x hx
      rcases List.mem_cons.mp hx with h | h
      · subst h; simpa using hcs
      · exact hacc x h

/-- Every word of `splitWords text` is non-empty and whitespace-free. -/
theorem splitWords_valid (text : List Char) :
    ∀ w ∈ splitWords text, w ≠ [] ∧ ∀ c ∈ w, ¬ isSpace c = true :=
  splitWordsAux_words_valid text [] (by simp)

/-- A list containing a non-whitespace character trims to a non-empty list. -/
theorem trimChars_ne_nil {l : List Char} {c : Char}
    (hc : c ∈ l) (hns : ¬ isSpace c = true) : trimChars l ≠ [] := by
  unfold trimChars
  intro h
  rw [List.reverse_eq_nil_iff] at h
  rw [List.dropWhile_eq_nil_iff] at h
  have hcl : c ∈ (l.dropWhile isSpace).reverse := by
    rw [List.mem_reverse]
    have := List.takeWhile_append_dropWhile (p := isSpace) (l := l)
    rcases List.mem_append.mp (by rw [this]; exact hc) with h1 | h1
    · exact absurd (List.mem_takeWhile_imp h1) hns
    · exact h1
  exact hns (h c hcl)

/-- Scanning a whitespace-free word moves it onto the accumulator. -/
theorem splitWordsAux_append_word (w : List Char) :
    ∀ (rest acc : List Char), (∀ c ∈ w, ¬ isSpace c = true) →
      splitWordsAux (w ++ rest) acc = splitWordsAux rest (w.reverse ++ acc) := by
  induction w with
  | nil => intro rest acc _; simp
  | cons c w' ih =>
    intro rest acc hw
    simp only [List.cons_append, splitWordsAux, List.append_eq]
    rw [if_neg (by simpa using hw c (by simp))]
    rw [ih rest (c :: acc) (fun x hx => hw x (by simp [hx]))]
    simp [List.append_assoc]

/-- `splitWords` is a left inverse of `joinWords` on non-empty lists of valid
words: splitting the space-joined chunk text recovers its word list. -/
theorem splitWords_joinWords :
    ∀ ws : List (List Char), ws ≠ [] →
      (∀ w ∈ ws, w ≠ [] ∧ ∀ c ∈ w, ¬ isSpace c = true) →
      splitWords (joinWords ws) = ws := by
  intro ws
  induction ws with
  | nil => intro h; exact absurd rfl h
  | cons w ws ih =>
    intro _ hvalid
    obtain ⟨hwne, hwns⟩ := hvalid w (by simp)
    cases ws with
    | nil =>
      show splitWords (joinWords [w]) = [w]
      have h1 : splitWordsAux (w ++ []) [] = splitWordsAux [] (w.reverse ++ []) :=
        splitWordsAux_append_word w [] [] hwns
      simp only [List.append_nil] at h1
      simp only [joinWords, splitWords, h1, splitWordsAux]
      rw [if_neg (by simpa [List.isEmpty_iff] using hwne)]
      simp
    | cons w2 ws2 =>
      show splitWords (joinWords (w :: w2 :: ws2)) = w :: w2 :: ws2
      have hj : joinWords (w :: w2 :: ws2) = w ++ ' ' :: joinWords (w2 :: ws2) := rfl
      have h1 := splitWordsAux_append_word w (' ' :: joinWords (w2 :: ws2)) [] hwns
      simp only [List.append_nil] at h1
      simp only [splitWords, hj, h1, splitWordsAux]
      rw [if_pos (by decide), if_neg (by simpa [List.isEmpty_iff] using hwne)]
      rw [List.reverse_reverse]
      have h2 : splitWords (joinWords (w2 :: ws2)) = w2 :: ws2 :=
        ih (by simp) (fun x hx => hvalid x (by simp [hx]))
      simpa [splitWords] using congrArg (w :: ·) h2

/-- The members of a non-empty list of valid words appear in its join, so the
join contains a non-whitespace character. -/
theorem joinWords_mem_head :
    ∀ (w : List Char) (ws : List (List Char)) (c : Char), c ∈ w →
      c ∈ joinWords (w :: ws) := by
  intro w ws c hc
  cases ws with
  | nil => exact hc
  | cons w2 ws2 => exact List.mem_append.mpr (Or.inl hc)

/-- Model of the Python loop `for i in range(0, len(l), step): out.append(l[i:i+size])`.
It is instantiated twice: in `_chunk_text` (document_parser.py lines 132-135,
`size = chunk_size`, `step = chunk_size - chunk_overlap`) and in the batching
loop of `upsert_documents` (pinecone_handler.py lines 83-84,
`size = step = batch_size`).  Python `range` raises `ValueError` when
`step = 0`; the model returns `[]` there and all theorems assume `0 < step`.
The recursion is bounded by a fuel argument so that it is structural; the
wrapper `sliceLoop` instantiates the fuel with `l.length`, which dominates
the iteration count because each iteration drops at least one element. -/
def sliceLoopF {α : Type} (size step : Nat) : Nat → List α → List (List α)
  | _, [] => []
  | 0, _ :: _ => []
  | fuel + 1, a :: l =>
    if step = 0 then []
    else (a :: l).take size :: sliceLoopF size step fuel ((a :: l).drop step)

/-- The slicing loop `for i in range(0, len(l), step): out.append(l[i:i+size])`
(see `sliceLoopF`). -/
def sliceLoop {α : Type} (size step : Nat) (l : List α) : List (List α) :=
  sliceLoopF size step l.length l

theorem sliceLoopF_congr {α : Type} (size step : Nat) (hstep : 0 < step) :
    ∀ (f f' : Nat) (l : List α), l.length ≤ f → l.length ≤ f' →
      sliceLoopF size step f l = sliceLoopF size step f' l := by
  intro f
  induction f with
  | zero =>
    intro f' l hf _
    have : l = [] := List.length_eq_zero.mp (by omega)
    subst this
    cases f' <;> rfl
  | succ g ih =>
    intro f' l hf hf'
    cases l with
    | nil => cases f' <;> rfl
    | cons a l' =>
      cases f' with
      | zero => simp at hf'
      | succ h =>
        simp only [sliceLoopF, if_neg (by omega : ¬ step = 0)]
        congr 1
        apply ih
        · simp only [List.length_drop, List.length_cons] at *
          omega
        · simp only [List.length_drop, List.length_cons] at *
          omega

theorem sliceLoop_nil {α : Type} (size step : Nat) :
    sliceLoop (α := α) size step [] = [] := rfl

theorem sliceLoop_eq_cons {α : Type} (size step : Nat) (l : List α)
    (hl : l ≠ []) (hstep : 0 < step) :
    sliceLoop size step l = l.take size :: sliceLoop size step (l.drop step) := by
  obtain ⟨a, l', rfl⟩ := List.exists_cons_of_ne_nil hl
  show sliceLoopF size step (a :: l').length (a :: l') = _
  simp only [List.length_cons, sliceLoopF, if_neg (by omega : ¬ step = 0)]
  congr 1
  apply sliceLoopF_congr size step hstep
  · simp only [List.length_drop, List.length_cons]
    omega
  · exact le_refl _

/-- The slicing loop makes `⌈l.length / step⌉` slices. -/
theorem sliceLoop_length {α : Type} (size step : Nat) (hstep : 0 < step) :
    ∀ (l : List α), l ≠ [] →
      (sliceLoop size step l).length = (l.length + step - 1) / step := by
  have H : ∀ (n : Nat) (l : List α), l.length = n → l ≠ [] →
      (sliceLoop size step l).length = (l.length + step - 1) / step := by
    intro n
    induction n using Nat.strong_induction_on with
    | _ n ih =>
      intro l hln hne
      rw [sliceLoop_eq_cons size step l hne hstep]
      by_cases hle : l.length ≤ step
      · have hdrop : l.drop step = [] := List.drop_eq_nil_of_le hle
        rw [hdrop, sliceLoop_nil]
        have hpos : 0 < l.length := List.length_pos.mpr hne
        simp only [List.length_cons, List.length_nil]
        have hdiv : (l.length + step - 1) / step = 1 :=
          Nat.div_eq_of_lt_le (by omega) (by omega)
        omega
      · push_neg at hle
        have hdne : l.drop step ≠ [] := by
          intro h
          have h2 : l.length ≤ step := by
            have := congrArg List.length h
            simp only [List.length_drop, List.length_nil] at this
            omega
          omega
        have hdl : (l.drop step).length = n - step := by
          simp [List.length_drop, hln]
        have hrec := ih (n - step) (by omega) (l.drop step) hdl hdne
        simp only [List.length_cons, hrec, hdl, hln]
        rw [show n - step + step - 1 = n - 1 by omega,
            show n + step - 1 = (n - 1) + step by omega,
            Nat.add_div_right _ hstep]
  intro l; exact H l.length l rfl

/-- The `i`-th slice is `l[i*step : i*step + size]`. -/
theorem sliceLoop_getElem {α : Type} (size step : Nat) (hstep : 0 < step) :
    ∀ (l : List α) (i : Nat) (h : i < (sliceLoop size step l).length),
      (sliceLoop size step l)[i] = (l.drop (i * step)).take size := by
  have H : ∀ (n : Nat) (l : List α) (i : Nat), l.length = n →
      ∀ h : i < (sliceLoop size step l).length,
      (sliceLoop size step l)[i] = (l.drop (i * step)).take size := by
    intro n
    induction n using Nat.strong_induction_on with
    | _ n ih =>
      intro l i hln h
      by_cases hne : l = []
      · subst hne; rw [sliceLoop_nil] at h; simp at h
      have e := sliceLoop_eq_cons size step l hne hstep
      rw [e] at h
      cases i with
      | zero => simp [e]
      | succ j =>
        have hpos : 0 < l.length := List.length_pos.mpr hne
        have hdl : (l.drop step).length = n - step := by
          simp [List.length_drop, hln]
        have h' : j < (sliceLoop size step (l.drop step)).length := by
          simpa using h
        have hstepj : ((l.drop step).drop (j * step)).take size
            = (l.drop ((j + 1) * step)).take size := by
          rw [List.drop_drop]
          congr 1
          rw [Nat.succ_mul, Nat.add_comm step (j * step)]
        simp only [e, List.getElem_cons_succ]
        exact (ih (n - step) (by omega) (l.drop step) j hdl h').trans hstepj
  intro l i h; exact H l.length l i rfl h

/-! ## Parser (src/src/chatbot/document_parser.py) -/

/-- Chunk metadata as built by the parser and read by the index client.
Python passes a dict; the fields read anywhere in the code are `source`,
`chunk_id` and `file_type`, each possibly absent (`dict.get` with default). -/
structure ChunkMeta where
  source : Option String := none
  chunk_id : Option Nat := none
  file_type : Option String := none
  deriving DecidableEq

/-- A chunk as returned by the parser: `{'content': ..., 'metadata': ...}`,
with the content text modelled at character level. -/
structure ParsedChunk where
  content : List Char
  metadata : ChunkMeta
  deriving DecidableEq

/-- `DocumentParser` state: the two construction parameters
(document_parser.py lines 14-16). -/
structure DocumentParser where
  chunk_size : Nat
  chunk_overlap : Nat
  deriving DecidableEq

/-- Model of `DocumentParser.__init__` (document_parser.py lines 14-16).
The body only stores `chunk_size` and `chunk_overlap`; it performs no
validation and cannot raise, so the model always returns `Except.ok`.
The `Except` codomain exists to state the spec's construction-time
rejection claim. -/
def DocumentParser.init (chunk_size chunk_overlap : Nat) :
    Except String DocumentParser :=
  .ok { chunk_size := chunk_size, chunk_overlap := chunk_overlap }

/-- Model of `DocumentParser._chunk_text` (document_parser.py lines 128-137):
`words = text.split()`, then `' '.join(words[i:i+chunk_size])` for
`i in range(0, len(words), chunk_size - chunk_overlap)`.  For
`chunk_overlap > chunk_size` Python's negative-step `range` is empty, and the
truncated `Nat` step `0` likewise gives `[]`; for `chunk_overlap = chunk_size`
Python raises `ValueError`, so every theorem below assumes
`chunk_overlap < chunk_size`. -/
def DocumentParser.chunkText (p : DocumentParser) (text : List Char) :
    List (List Char) :=
  (sliceLoop p.chunk_size (p.chunk_size - p.chunk_overlap) (splitWords text)).map
    joinWords

/-- Model of Python `enumerate` starting at `i`. -/
def enumFrom {α : Type} (i : Nat) : List α → List (Nat × α)
  | [] => []
  | a :: as => (i, a) :: enumFrom (i + 1) as

theorem enumFrom_length {α : Type} : ∀ (i : Nat) (l : List α),
    (enumFrom i l).length = l.length := by
  intro i l
  induction l generalizing i with
  | nil => rfl
  | cons a as ih => simp [enumFrom, ih]

theorem enumFrom_getElem {α : Type} :
    ∀ (l : List α) (k i : Nat) (h : i < (enumFrom k l).length)
      (h' : i < l.length), (enumFrom k l)[i] = (k + i, l[i]) := by
  intro l
  induction l with
  | nil => intro k i h h'; simp at h'
  | cons a as ih =>
    intro k i h h'
    cases i with
    | zero => simp [enumFrom]
    | succ j =>
      have hj : j < (enumFrom (k + 1) as).length := by
        simpa [enumFrom, enumFrom_length] using h
      have hj' : j < as.length := by simpa using h'
      simp only [enumFrom, List.getElem_cons_succ]
      rw [ih (k + 1) j hj hj']
      congr 1
      omega

/-- Model of `DocumentParser._parse_txt` (document_parser.py lines 89-107):
the opaque file read supplies `full_text`; each chunk of `_chunk_text` is
wrapped with `source`, a 0-based `chunk_id` from `enumerate`, and
`file_type = 'txt'`. -/
def DocumentParser.parseTxt (p : DocumentParser) (path : String)
    (full_text : List Char) : List ParsedChunk :=
  (enumFrom 0 (p.chunkText full_text)).map fun ic =>
    { content := ic.2,
      metadata :=
        { source := some path, chunk_id := some ic.1, file_type := some "txt" } }

/-- The last `n` elements of a list. -/
def lastN {α : Type} (n : Nat) (l : List α) : List α := l.drop (l.length - n)

/-- An index below `⌈n / step⌉` addresses a position `i * step` inside `n`. -/
theorem index_mul_lt_of_lt_ceil {n step i : Nat} (hstep : 0 < step)
    (h : i < (n + step - 1) / step) : i * step < n := by
  by_contra hle
  push_neg at hle
  have hle' : n ≤ step * i := by rw [Nat.mul_comm]; exact hle
  have hdiv : (n + step - 1) / step ≤ i :=
    (Nat.div_le_iff_le_mul_add_pred hstep).mpr (by omega)
  omega

theorem chunkText_length {S O : Nat} (hO : O < S) (text : List Char)
    (hw : splitWords text ≠ []) :
    (DocumentParser.chunkText ⟨S, O⟩ text).length
      = ((splitWords text).length + (S - O) - 1) / (S - O) := by
  unfold DocumentParser.chunkText
  rw [List.length_map]
  exact sliceLoop_length S (S - O) (by omega) (splitWords text) hw

theorem chunkText_ne_nil_of_index {S O : Nat} (text : List Char) {i : Nat}
    (h : i < (DocumentParser.chunkText ⟨S, O⟩ text).length) :
    splitWords text ≠ [] := by
  intro hnil
  unfold DocumentParser.chunkText at h
  rw [hnil, sliceLoop_nil] at h
  simp at h

theorem chunkText_getElem_join {S O : Nat} (hO : O < S) (text : List Char)
    {i : Nat} (h : i < (DocumentParser.chunkText ⟨S, O⟩ text).length) :
    (DocumentParser.chunkText ⟨S, O⟩ text)[i]
      = joinWords (((splitWords text).drop (i * (S - O))).take S) := by
  unfold DocumentParser.chunkText at h ⊢
  rw [List.getElem_map]
  congr 1
  exact sliceLoop_getElem S (S - O) (by omega) (splitWords text) i
    (by simpa using h)

theorem chunkText_slice_ne_nil {S O : Nat} (hO : O < S) (text : List Char)
    {i : Nat} (h : i < (DocumentParser.chunkText ⟨S, O⟩ text).length) :
    ((splitWords text).drop (i * (S - O))).take S ≠ [] := by
  have hw : splitWords text ≠ [] := chunkText_ne_nil_of_index text h
  have hlen := chunkText_length hO text hw
  rw [hlen] at h
  have hi : i * (S - O) < (splitWords text).length :=
    index_mul_lt_of_lt_ceil (by omega) h
  intro hnil
  have := congrArg List.length hnil
  simp only [List.length_take, List.length_drop, List.length_nil] at this
  omega

theorem chunkText_slice_valid {S O : Nat} (text : List Char) (i : Nat) :
    ∀ w ∈ ((splitWords text).drop (i * (S - O))).take S,
      w ≠ [] ∧ ∀ c ∈ w, ¬ isSpace c = true := by
  intro w hwmem
  exact splitWords_valid text w
    (List.mem_of_mem_drop (List.mem_of_mem_take hwmem))

/-- Splitting the `i`-th chunk of `_chunk_text` recovers the word window
`words[i*(S-O) : i*(S-O)+S]`. -/
theorem chunkText_words {S O : Nat} (hO : O < S) (text : List Char)
    {i : Nat} (h : i < (DocumentParser.chunkText ⟨S, O⟩ text).length) :
    splitWords ((DocumentParser.chunkText ⟨S, O⟩ text)[i])
      = ((splitWords text).drop (i * (S - O))).take S := by
  rw [chunkText_getElem_join hO text h]
  exact splitWords_joinWords _ (chunkText_slice_ne_nil hO text h)
    (chunkText_slice_valid text i)

/-- C1: for every text with at least one whitespace-delimited word and
`chunk_overlap < chunk_size`, `_chunk_text` produces exactly
`⌈total_words / (chunk_size − chunk_overlap)⌉` chunks, every chunk spans at
most `chunk_size` words, and whenever a chunk contains exactly `chunk_size`
words and a successor chunk exists, the last `chunk_overlap` words of that
chunk equal the first `chunk_overlap` words of the successor. -/
theorem C1_chunk_text_overlapping_windows (S O : Nat) (text : List Char)
    (hO : O < S) (hw : splitWords text ≠ []) :
    ((DocumentParser.chunkText ⟨S, O⟩ text).length
        = (splitWords text).length ⌈/⌉ (S - O))
    ∧ (∀ c ∈ DocumentParser.chunkText ⟨S, O⟩ text, (splitWords c).length ≤ S)
    ∧ (∀ i : Nat, ∀ h : i + 1 < (DocumentParser.chunkText ⟨S, O⟩ text).length,
        (splitWords ((DocumentParser.chunkText ⟨S, O⟩ text)[i])).length = S →
        lastN O (splitWords ((DocumentParser.chunkText ⟨S, O⟩ text)[i]))
          = (splitWords ((DocumentParser.chunkText ⟨S, O⟩ text)[i + 1])).take O) := by
  refine ⟨by rw [Nat.ceilDiv_eq_add_pred_div]; exact chunkText_length hO text hw,
    ?_, ?_⟩
  · intro c hc
    obtain ⟨i, hi, rfl⟩ := List.mem_iff_getElem.mp hc
    rw [chunkText_words hO text hi]
    exact le_trans (List.length_take_le _ _) (le_refl S)
  · intro i h hlen
    have hi : i < (DocumentParser.chunkText ⟨S, O⟩ text).length := by omega
    rw [chunkText_words hO text hi] at hlen ⊢
    rw [chunkText_words hO text h]
    unfold lastN
    rw [hlen]
    rw [List.drop_take]
    rw [List.take_take]
    rw [List.drop_drop]
    congr 2 <;> first | omega | rw [Nat.succ_mul]

/-- C3 (observed code behavior): `DocumentParser.__init__` stores any
`(chunk_size, chunk_overlap)` pair without validation; in particular a pair
with `chunk_overlap >= chunk_size` is accepted and no error is raised. -/
theorem C3_init_never_rejects :
    DocumentParser.init 100 200 = .ok ⟨100, 200⟩
    ∧ DocumentParser.init 100 100 = .ok ⟨100, 100⟩
    ∧ ∀ S O : Nat, DocumentParser.init S O = .ok ⟨S, O⟩ :=
  ⟨rfl, rfl, fun _ _ => rfl⟩

/-- The full text assembled by `_parse_pdf` (document_parser.py lines
45-48): the opaque per-page `extract_text()` results are the input `pages`;
each is appended after the page-boundary marker
`f"\n--- Page {page_num + 1} ---\n"`. -/
def pdfFullText (pages : List (List Char)) : List Char :=
  (enumFrom 0 pages).foldl
    (fun acc ip =>
      acc ++ ("\n--- Page " ++ toString (ip.1 + 1) ++ " ---\n").data ++ ip.2)
    []

/-- The full text assembled by `_parse_docx` (document_parser.py lines
68-72): each paragraph's text followed by a newline. -/
def docxFullText (paragraphs : List (List Char)) : List Char :=
  paragraphs.foldl (fun acc para => acc ++ para ++ ['\n']) []

/-- Model of `DocumentParser._parse_pdf` (document_parser.py lines 39-63):
chunk the assembled page text and wrap each chunk with `source`, a 0-based
`chunk_id` from `enumerate`, and `file_type = 'pdf'`. -/
def DocumentParser.parsePdf (p : DocumentParser) (path : String)
    (pages : List (List Char)) : List ParsedChunk :=
  (enumFrom 0 (p.chunkText (pdfFullText pages))).map fun ic =>
    { content := ic.2,
      metadata :=
        { source := some path, chunk_id := some ic.1, file_type := some "pdf" } }

/-- Model of `DocumentParser._parse_docx` (document_parser.py lines 65-87):
chunk the concatenated paragraph text and wrap each chunk with `source`, a
0-based `chunk_id` from `enumerate`, and `file_type = 'docx'`. -/
def DocumentParser.parseDocx (p : DocumentParser) (path : String)
    (paragraphs : List (List Char)) : List ParsedChunk :=
  (enumFrom 0 (p.chunkText (docxFullText paragraphs))).map fun ic =>
    { content := ic.2,
      metadata :=
        { source := some path, chunk_id := some ic.1,
          file_type := some "docx" } }

/-- The common chunk-wrapping pattern of the three text-based extraction
paths preserves the chunk invariant: position `i` carries `chunk_id = i`
and content that trims to non-empty. -/
theorem chunkWrap_invariant (S O : Nat) (hO : O < S) (path ft : String)
    (text : List Char) (i : Nat)
    (h : i < ((enumFrom 0 (DocumentParser.chunkText ⟨S, O⟩ text)).map fun ic =>
        ({ content := ic.2,
           metadata := { source := some path, chunk_id := some ic.1,
                         file_type := some ft } } : ParsedChunk)).length) :
    (((enumFrom 0 (DocumentParser.chunkText ⟨S, O⟩ text)).map fun ic =>
        ({ content := ic.2,
           metadata := { source := some path, chunk_id := some ic.1,
                         file_type := some ft } } : ParsedChunk))[i]).metadata.chunk_id
        = some i
    ∧ trimChars
        ((((enumFrom 0 (DocumentParser.chunkText ⟨S, O⟩ text)).map fun ic =>
          ({ content := ic.2,
             metadata := { source := some path, chunk_id := some ic.1,
                           file_type := some ft } } : ParsedChunk))[i]).content)
      ≠ [] := by
  rw [List.getElem_map]
  have hlen : i < (DocumentParser.chunkText ⟨S, O⟩ text).length := by
    rw [List.length_map, enumFrom_length] at h
    exact h
  rw [enumFrom_getElem _ 0 i (by simpa [enumFrom_length] using hlen) hlen]
  constructor
  · simp
  · show trimChars ((DocumentParser.chunkText ⟨S, O⟩ text)[i]) ≠ []
    rw [chunkText_getElem_join hO text hlen]
    obtain ⟨w, rest, hew⟩ :=
      List.exists_cons_of_ne_nil (chunkText_slice_ne_nil hO text hlen)
    obtain ⟨hwne, hwns⟩ := chunkText_slice_valid text i w (by rw [hew]; simp)
    obtain ⟨c, hc⟩ := List.exists_mem_of_ne_nil w hwne
    rw [hew]
    exact trimChars_ne_nil (joinWords_mem_head w rest c hc) (hwns c hc)

/-- C8: on each text-based extraction path (`_parse_txt`, `_parse_pdf`,
`_parse_docx`), the chunk at list position `i` carries
`metadata.chunk_id = i` (so chunk ids start at 0, are unique and increase
by 1 within the document), and its content is non-empty after trimming
whitespace. -/
theorem C8_parse_text_paths_chunk_invariant (S O : Nat) (hO : O < S)
    (path : String) (i : Nat) :
    (∀ (text : List Char)
        (h : i < (DocumentParser.parseTxt ⟨S, O⟩ path text).length),
      ((DocumentParser.parseTxt ⟨S, O⟩ path text)[i]).metadata.chunk_id = some i
      ∧ trimChars ((DocumentParser.parseTxt ⟨S, O⟩ path text)[i]).content ≠ [])
    ∧ (∀ (pages : List (List Char))
        (h : i < (DocumentParser.parsePdf ⟨S, O⟩ path pages).length),
      ((DocumentParser.parsePdf ⟨S, O⟩ path pages)[i]).metadata.chunk_id = some i
      ∧ trimChars ((DocumentParser.parsePdf ⟨S, O⟩ path pages)[i]).content ≠ [])
    ∧ (∀ (paragraphs : List (List Char))
        (h : i < (DocumentParser.parseDocx ⟨S, O⟩ path paragraphs).length),
      ((DocumentParser.parseDocx ⟨S, O⟩ path paragraphs)[i]).metadata.chunk_id
          = some i
      ∧ trimChars
          ((DocumentParser.parseDocx ⟨S, O⟩ path paragraphs)[i]).content ≠ []) :=
  ⟨fun text h => chunkWrap_invariant S O hO path "txt" text i h,
   fun pages h => chunkWrap_invariant S O hO path "pdf" (pdfFullText pages) i h,
   fun paragraphs h =>
     chunkWrap_invariant S O hO path "docx" (docxFullText paragraphs) i h⟩

theorem C1_chunk_text_overlapping_windows_witness :
    1 < 2 ∧ splitWords ['a', ' ', 'b', ' ', 'c'] ≠ []
    ∧ (DocumentParser.chunkText ⟨2, 1⟩ ['a', ' ', 'b', ' ', 'c']).length = 3 :=
  ⟨by decide, by decide, by
    rw [(C1_chunk_text_overlapping_windows 2 1 ['a', ' ', 'b', ' ', 'c']
      (by decide) (by decide)).1, Nat.ceilDiv_eq_add_pred_div]
    decide⟩

theorem C8_parse_text_paths_chunk_invariant_witness :
    1 < 2
    ∧ ((DocumentParser.parseTxt ⟨2, 1⟩ "f.txt" ['h', 'i']).get
        ⟨0, by decide⟩).metadata.chunk_id = some 0
    ∧ trimChars ((DocumentParser.parseTxt ⟨2, 1⟩ "f.txt" ['h', 'i']).get
        ⟨0, by decide⟩).content ≠ [] :=
  ⟨by decide,
    ((C8_parse_text_paths_chunk_invariant 2 1 (by decide) "f.txt" 0).1
      ['h', 'i'] (by decide)).1,
    ((C8_parse_text_paths_chunk_invariant 2 1 (by decide) "f.txt" 0).1
      ['h', 'i'] (by decide)).2⟩

/-! ## Embedding index client (src/src/chatbot/pinecone_handler.py) -/

/-- A document as consumed by `upsert_documents`:
`{'content': ..., 'metadata': ...}`. -/
structure Doc where
  content : String
  metadata : ChunkMeta
  deriving DecidableEq

/-- Python `str.strip()` on a `String`, via `trimChars`. -/
def pyStrip (s : String) : String := ⟨trimChars s.data⟩

/-- Python `s[:n]` on a `String`. -/
def pyTake (s : String) (n : Nat) : String := ⟨s.data.take n⟩

/-- A vector record as packaged for `index.upsert` (pinecone_handler.py
lines 67-74): id, embedding values, and the chunk metadata together with
the first 1000 characters of the content stored alongside it. -/
structure Vec (E : Type) where
  id : String
  values : E
  metadata : ChunkMeta
  metadataContent : String
  deriving DecidableEq

/-- The opaque external services used by `PineconeHandler`: `embed` models
the OpenAI embeddings call inside `_generate_embedding` (may raise), `store`
models `self.index.upsert` (may raise), and `md5hex` models
`hashlib.md5(text.encode()).hexdigest()` from the standard library. The
embedding type `E` is abstract. -/
structure HandlerEnv (E : Type) where
  embed : String → Except String E
  store : List (Vec E) → Except String Unit
  md5hex : String → String

/-- Model of `PineconeHandler._generate_id` (pinecone_handler.py lines
47-51): `f"{source}_{chunk_id}_{content_hash[:8]}"` where `content_hash`
is the MD5 hex digest of the content and `source` / `chunk_id` are read by
`metadata.get` with defaults `'unknown'` / `0`. -/
def generateId (md5hex : String → String) (content : String)
    (metadata : ChunkMeta) : String :=
  let content_hash := md5hex content
  let source := metadata.source.getD "unknown"
  let chunk_id := metadata.chunk_id.getD 0
  source ++ "_" ++ toString chunk_id ++ "_" ++ pyTake content_hash 8

/-- The first loop of `upsert_documents` (pinecone_handler.py lines 56-78):
skip chunks whose stripped content is empty; embed the content, skipping the
chunk when the embedding call raises (`except ... continue`); otherwise
package the vector record. -/
def buildVectors {E : Type} (env : HandlerEnv E) : List Doc → List (Vec E)
  | [] => []
  | doc :: docs =>
    if pyStrip doc.content = "" then buildVectors env docs
    else
      match env.embed doc.content with
      | .error _ => buildVectors env docs
      | .ok embedding =>
        { id := generateId env.md5hex doc.content doc.metadata,
          values := embedding,
          metadata := doc.metadata,
          metadataContent := pyTake doc.content 1000 } :: buildVectors env docs

/-- The batching loop of `upsert_documents` (pinecone_handler.py lines
80-91): submit every `batch_size` slice in order, adding its size to
`upserted_count` when the store call returns and to `failed_count` when it
raises. -/
def submitBatches {E : Type} (env : HandlerEnv E) (vectors : List (Vec E))
    (batch_size : Nat) : Nat × Nat :=
  (sliceLoop batch_size batch_size vectors).foldl
    (fun counts batch =>
      match env.store batch with
      | .ok _ => (counts.1 + batch.length, counts.2)
      | .error _ => (counts.1, counts.2 + batch.length))
    (0, 0)

/-- The report returned by `upsert_documents` (pinecone_handler.py lines
93-97). -/
structure UpsertReport where
  upserted : Nat
  failed : Nat
  total : Nat
  deriving DecidableEq

/-- Model of `PineconeHandler.upsert_documents` (pinecone_handler.py lines
53-97): build the vectors, submit them in batches, and report
`{'upserted': ..., 'failed': ..., 'total': len(vectors)}`. -/
def upsertDocuments {E : Type} (env : HandlerEnv E) (documents : List Doc)
    (batch_size : Nat) : UpsertReport :=
  let vectors := buildVectors env documents
  let counts := submitBatches env vectors batch_size
  { upserted := counts.1, failed := counts.2, total := vectors.length }

/-- The chunks of `documents` that actually become vectors: non-whitespace
content and a successful embedding call. -/
def vectorBuilt {E : Type} (env : HandlerEnv E) (d : Doc) : Bool :=
  !(pyStrip d.content == "") && (env.embed d.content).isOk

theorem buildVectors_cons {E : Type} (env : HandlerEnv E) (d : Doc)
    (ds : List Doc) :
    buildVectors env (d :: ds)
      = if pyStrip d.content = "" then buildVectors env ds
        else
          match env.embed d.content with
          | .error _ => buildVectors env ds
          | .ok embedding =>
            { id := generateId env.md5hex d.content d.metadata,
              values := embedding,
              metadata := d.metadata,
              metadataContent := pyTake d.content 1000 } :: buildVectors env ds
    := rfl

theorem buildVectors_append {E : Type} (env : HandlerEnv E) :
    ∀ l₁ l₂ : List Doc,
      buildVectors env (l₁ ++ l₂) = buildVectors env l₁ ++ buildVectors env l₂ := by
  intro l₁ l₂
  induction l₁ with
  | nil => rfl
  | cons d ds ih =>
    rw [List.cons_append, buildVectors_cons, buildVectors_cons]
    by_cases hstrip : pyStrip d.content = ""
    · simp only [if_pos hstrip]
      exact ih
    · simp only [if_neg hstrip]
      cases henv : env.embed d.content with
      | error e => simpa using ih
      | ok emb => simpa using ih

theorem buildVectors_length {E : Type} (env : HandlerEnv E) :
    ∀ documents : List Doc,
      (buildVectors env documents).length = documents.countP (vectorBuilt env) := by
  intro documents
  induction documents with
  | nil => rfl
  | cons d ds ih =>
    rw [List.countP_cons, buildVectors_cons]
    by_cases hstrip : pyStrip d.content = ""
    · simp only [if_pos hstrip]
      rw [if_neg (by simp [vectorBuilt, hstrip]), ih]
      omega
    · simp only [if_neg hstrip]
      cases henv : env.embed d.content with
      | error e =>
        simp only []
        rw [if_neg (by simp [vectorBuilt, henv, Except.isOk, Except.toBool]),
          ih]
        omega
      | ok emb =>
        simp only []
        rw [if_pos (by
          simp only [vectorBuilt, henv, Except.isOk, Except.toBool,
            Bool.and_eq_true, Bool.not_eq_true', beq_eq_false_iff_ne, ne_eq]
          exact ⟨hstrip, trivial⟩)]
        simp [ih]

/-- Joining the batch slices of `sliceLoop n n` recovers the list. -/
theorem sliceLoop_flatten {α : Type} (n : Nat) (hn : 0 < n) :
    ∀ l : List α, (sliceLoop n n l).flatten = l := by
  have H : ∀ (k : Nat) (l : List α), l.length = k →
      (sliceLoop n n l).flatten = l := by
    intro k
    induction k using Nat.strong_induction_on with
    | _ k ih
    =>
      intro l hlk
      by_cases hne : l = []
      · subst hne; rw [sliceLoop_nil]; rfl
      · rw [sliceLoop_eq_cons n n l hne hn, List.flatten_cons]
        have hpos : 0 < l.length := List.length_pos.mpr hne
        rw [ih ((l.drop n).length) (by simp [List.length_drop]; omega)
          (l.drop n) rfl]
        exact List.take_append_drop n l
  intro l; exact H l.length l rfl

/-- Unfolds the submission fold into the sums of the ok and failing batch
sizes. -/
theorem submitBatches_counts {E : Type} (env : HandlerEnv E) :
    ∀ (batches : List (List (Vec E))) (u f : Nat),
      batches.foldl
        (fun counts batch =>
          match env.store batch with
          | .ok _ => (counts.1 + batch.length, counts.2)
          | .error _ => (counts.1, counts.2 + batch.length))
        (u, f)
      = (u + ((batches.filter fun b => (env.store b).isOk).map List.length).sum,
         f + ((batches.filter fun b => !(env.store b).isOk).map List.length).sum) := by
  intro batches
  induction batches with
  | nil => intro u f; simp
  | cons b bs ih =>
    intro u f
    rw [List.foldl_cons]
    cases hb : env.store b with
    | ok v =>
      simp only [hb]
      rw [ih]
      have hfil : (env.store b).isOk = true := by rw [hb]; rfl
      rw [List.filter_cons, List.filter_cons]
      simp [hfil]
      omega
    | error e =>
      simp only [hb]
      rw [ih]
      have hfil : (env.store b).isOk = false := by rw [hb]; rfl
      rw [List.filter_cons, List.filter_cons]
      simp [hfil]
      omega

/-- Summing a measure over a Boolean partition of a list gives the total. -/
theorem filter_map_sum_partition {α : Type} (p : α → Bool) (g : α → Nat) :
    ∀ l : List α,
      ((l.filter p).map g).sum + ((l.filter fun a => !p a).map g).sum
        = (l.map g).sum := by
  intro l
  induction l with
  | nil => rfl
  | cons a l ih =>
    by_cases hp : p a = true
    · simp [List.filter_cons, hp, ih.symm]
      omega
    · rw [List.filter_cons, List.filter_cons]
      simp only [hp, Bool.not_false, if_false, Bool.not_eq_true] at *
      simp [hp, ih.symm]
      omega

/-- `submitBatches` returns the sums of the sizes of the batches whose store
call returned, and of those whose store call raised. -/
theorem submitBatches_spec {E : Type} (env : HandlerEnv E)
    (vectors : List (Vec E)) (batch_size : Nat) :
    submitBatches env vectors batch_size
      = ((((sliceLoop batch_size batch_size vectors).filter
            fun b => (env.store b).isOk).map List.length).sum,
         (((sliceLoop batch_size batch_size vectors).filter
            fun b => !(env.store b).isOk).map List.length).sum) := by
  unfold submitBatches
  rw [submitBatches_counts]
  simp

/-- C9: for every input list of chunks and positive batch size, the report
of `upsert_documents` satisfies `upserted + failed = total`, and `total`
counts exactly the input chunks with non-whitespace content whose embedding
call succeeded. -/
theorem C9_upsert_report_totals {E : Type} (env : HandlerEnv E)
    (documents : List Doc) (batch_size : Nat) (hbs : 0 < batch_size) :
    (upsertDocuments env documents batch_size).upserted
        + (upsertDocuments env documents batch_size).failed
      = (upsertDocuments env documents batch_size).total
    ∧ (upsertDocuments env documents batch_size).total
      = documents.countP (vectorBuilt env) := by
  constructor
  · show (submitBatches env (buildVectors env documents) batch_size).1
        + (submitBatches env (buildVectors env documents) batch_size).2
      = (buildVectors env documents).length
    rw [submitBatches_spec]
    show (((sliceLoop batch_size batch_size (buildVectors env documents)).filter
          fun b => (env.store b).isOk).map List.length).sum
        + (((sliceLoop batch_size batch_size (buildVectors env documents)).filter
          fun b => !(env.store b).isOk).map List.length).sum
      = (buildVectors env documents).length
    rw [filter_map_sum_partition]
    rw [← List.length_flatten, sliceLoop_flatten batch_size hbs]
  · show (buildVectors env documents).length = _
    exact buildVectors_length env documents

/-- C6: a batch whose store call raises contributes every one of its
vectors to `failed` and nothing to `upserted`, without affecting any other
batch: `upserted` is the sum of the sizes of the successfully stored
batches and `failed` is the sum of the sizes of the batches whose store
call raised. -/
theorem C6_batch_failure_isolation {E : Type} (env : HandlerEnv E)
    (documents : List Doc) (batch_size : Nat) (_hbs : 0 < batch_size) :
    (upsertDocuments env documents batch_size).upserted
      = ((((sliceLoop batch_size batch_size (buildVectors env documents)).filter
          fun b => (env.store b).isOk).map List.length).sum)
    ∧ (upsertDocuments env documents batch_size).failed
      = ((((sliceLoop batch_size batch_size (buildVectors env documents)).filter
          fun b => !(env.store b).isOk).map List.length).sum) := by
  constructor
  · show (submitBatches env (buildVectors env documents) batch_size).1 = _
    rw [submitBatches_spec]
  · show (submitBatches env (buildVectors env documents) batch_size).2 = _
    rw [submitBatches_spec]

/-- C2 (amended): a chunk with non-empty content whose embedding call raises
is excluded from the vectors submitted for storage and from the report
entirely — it contributes neither to `failed` nor to `total`, and the report
equals the report for the input with that chunk removed. -/
theorem C2_amended_embed_failure_excluded {E : Type} (env : HandlerEnv E)
    (pre post : List Doc) (d : Doc) (batch_size : Nat)
    (hfail : ∃ e, env.embed d.content = .error e) :
    upsertDocuments env (pre ++ d :: post) batch_size
      = upsertDocuments env (pre ++ post) batch_size := by
  obtain ⟨e, he⟩ := hfail
  have hbv : buildVectors env (pre ++ d :: post)
      = buildVectors env (pre ++ post) := by
    rw [buildVectors_append, buildVectors_append, buildVectors_cons]
    by_cases hstrip : pyStrip d.content = ""
    · rw [if_pos hstrip]
    · rw [if_neg hstrip, he]
  unfold upsertDocuments
  rw [hbv]

/-- A handler environment whose embedding call always raises (embedding
service down); the store call always succeeds. -/
def embedFailEnv : HandlerEnv Unit where
  embed := fun _ => .error "embedding failure"
  store := fun _ => .ok ()
  md5hex := fun _ => "0123456789abcdef0123456789abcdef"

/-- A chunk with non-empty content. -/
def helloDoc : Doc where
  content := "hello"
  metadata :=
    { source := some "doc.txt", chunk_id := some 0, file_type := some "txt" }

/-- C2 counterexample: a chunk with non-empty content whose embedding call
raises is NOT counted in the report — the run returns
`{'upserted': 0, 'failed': 0, 'total': 0}`, so the chunk contributed
neither to `failed` nor to `total`, contradicting the claim. -/
theorem C2_counterexample_embed_failure_not_counted :
    pyStrip helloDoc.content ≠ ""
    ∧ embedFailEnv.embed helloDoc.content = .error "embedding failure"
    ∧ upsertDocuments embedFailEnv [helloDoc] 100
        = { upserted := 0, failed := 0, total := 0 } :=
  ⟨by decide, rfl, by decide⟩

theorem C2_amended_embed_failure_excluded_witness :
    (∃ e, embedFailEnv.embed helloDoc.content = .error e)
    ∧ upsertDocuments embedFailEnv [helloDoc] 100
      = upsertDocuments embedFailEnv [] 100 :=
  ⟨⟨"embedding failure", rfl⟩,
    C2_amended_embed_failure_excluded embedFailEnv [] [] helloDoc 100
      ⟨"embedding failure", rfl⟩⟩

/-- C4: `_generate_id` is a deterministic function of
`(source, chunk_id, content)`: it equals
`"{source}_{chunk_id}_{p}"` with `p` the first 8 hex characters of the MD5
digest of the content, and metadata records agreeing on `source` and
`chunk_id` (whatever their other fields) produce the same id for the same
content. -/
theorem C4_generate_id_deterministic (md5hex : String → String)
    (content src : String) (cid : Nat) (m m' : ChunkMeta)
    (hs : m.source = some src) (hc : m.chunk_id = some cid) :
    generateId md5hex content m
        = src ++ "_" ++ toString cid ++ "_" ++ pyTake (md5hex content) 8
    ∧ (m'.source = m.source → m'.chunk_id = m.chunk_id →
        generateId md5hex content m' = generateId md5hex content m) := by
  constructor
  · unfold generateId
    rw [hs, hc]
    rfl
  · intro h1 h2
    unfold generateId
    rw [h1, h2]

theorem C4_generate_id_deterministic_witness :
    generateId (fun _ => "0123456789abcdef0123456789abcdef") "hi"
        { source := some "a.txt", chunk_id := some 3, file_type := some "txt" }
      = "a.txt_3_01234567"
    ∧ generateId (fun _ => "0123456789abcdef0123456789abcdef") "hi"
        { source := some "a.txt", chunk_id := some 3, file_type := none }
      = generateId (fun _ => "0123456789abcdef0123456789abcdef") "hi"
        { source := some "a.txt", chunk_id := some 3, file_type := some "txt" } := by
  have h := C4_generate_id_deterministic
    (fun _ => "0123456789abcdef0123456789abcdef") "hi" "a.txt" 3
    { source := some "a.txt", chunk_id := some 3, file_type := some "txt" }
    { source := some "a.txt", chunk_id := some 3, file_type := none }
    rfl rfl
  exact ⟨by rw [h.1]; decide, h.2 rfl rfl⟩

/-- A handler environment whose embedding always succeeds and whose store
call fails exactly on batches of size 1. -/
def flakyStoreEnv : HandlerEnv Unit where
  embed := fun _ => .ok ()
  store := fun b => if b.length = 1 then .error "store failure" else .ok ()
  md5hex := fun _ => "0123456789abcdef0123456789abcdef"

/-- Three chunks with non-empty contents. -/
def threeDocs : List Doc :=
  [{ content := "alpha",
     metadata := { source := some "s.txt", chunk_id := some 0, file_type := some "txt" } },
   { content := "beta",
     metadata := { source := some "s.txt", chunk_id := some 1, file_type := some "txt" } },
   { content := "gamma",
     metadata := { source := some "s.txt", chunk_id := some 2, file_type := some "txt" } }]

theorem C6_batch_failure_isolation_witness :
    0 < 2
    ∧ (upsertDocuments flakyStoreEnv threeDocs 2).upserted = 2
    ∧ (upsertDocuments flakyStoreEnv threeDocs 2).failed = 1 := by
  have h := C6_batch_failure_isolation flakyStoreEnv threeDocs 2 (by decide)
  exact ⟨by decide, by rw [h.1]; decide, by rw [h.2]; decide⟩

theorem C9_upsert_report_totals_witness :
    0 < 2
    ∧ (upsertDocuments flakyStoreEnv threeDocs 2).upserted
        + (upsertDocuments flakyStoreEnv threeDocs 2).failed
      = (upsertDocuments flakyStoreEnv threeDocs 2).total
    ∧ (upsertDocuments flakyStoreEnv threeDocs 2).total
      = threeDocs.countP (vectorBuilt flakyStoreEnv) :=
  ⟨by decide,
    (C9_upsert_report_totals flakyStoreEnv threeDocs 2 (by decide)).1,
    (C9_upsert_report_totals flakyStoreEnv threeDocs 2 (by decide)).2⟩

/-! ## Directory scan (document_parser.py) and ingestion orchestrator
(src/src/chatbot/document_processor.py) -/

/-- Model of the directory loop of `DocumentParser.parse_directory`
(document_parser.py lines 146-155). The filesystem traversal (`rglob`), the
extension filter and the per-file `parse_document` call are external
effects; `results` lists the outcomes of `parse_document` for the matching
files in traversal order, `Except.error` standing for a raised parse error.
The loop extends `all_chunks` on success and only logs on failure. -/
def parseDirectory {α : Type} : List (Except String (List α)) → List α
  | [] => []
  | .ok chunks :: rest => chunks ++ parseDirectory rest
  | .error _ :: rest => parseDirectory rest

/-- C5: a raised parse error for one file does not propagate out of
`parse_directory`: the failing file is skipped, the scan continues, and the
result is the concatenation of the chunks of every successfully parsed
file. -/
theorem C5_parse_directory_skips_failures {α : Type} :
    (∀ (pre post : List (Except String (List α))) (e : String),
      parseDirectory (pre ++ .error e :: post) = parseDirectory (pre ++ post))
    ∧ ∀ results : List (Except String (List α)),
      parseDirectory results = (results.filterMap Except.toOption).flatten := by
  constructor
  · intro pre post e
    induction pre with
    | nil => rfl
    | cons r rs ih =>
      cases r with
      | ok c =>
        show c ++ parseDirectory (rs ++ .error e :: post)
          = c ++ parseDirectory (rs ++ post)
        rw [ih]
      | error e2 =>
        show parseDirectory (rs ++ .error e :: post)
          = parseDirectory (rs ++ post)
        exact ih
  · intro results
    induction results with
    | nil => rfl
    | cons r rs ih =>
      cases r with
      | ok c => simp [parseDirectory, Except.toOption, ih]
      | error e => simp [parseDirectory, Except.toOption, ih]

/-- The dict returned by `process_single_file` (document_processor.py lines
27-41): the success dict carries the counts and no error key, the failure
dict carries the error message and no counts; keys absent from the
respective dict are `none`. -/
structure FileReport where
  file_path : String
  chunks_parsed : Option Nat
  vectors_upserted : Option Nat
  vectors_failed : Option Nat
  success : Bool
  error : Option String
  deriving DecidableEq

/-- Model of `DocumentProcessor.process_single_file` (document_processor.py
lines 17-41): the outcome of `self.parser.parse_document(file_path)` is the
input `parseOutcome` (`Except.error` when that call raised); on success the
chunks go to `upsert_documents` (default batch size 100), which catches its
internal failures and returns normally, and the success report is built; a
raised error is caught and becomes the failure report. -/
def processSingleFile {E : Type} (env : HandlerEnv E) (file_path : String)
    (parseOutcome : Except String (List Doc)) : FileReport :=
  match parseOutcome with
  | .error e =>
    { file_path := file_path, chunks_parsed := none, vectors_upserted := none,
      vectors_failed := none, success := false, error := some e }
  | .ok chunks =>
    let result := upsertDocuments env chunks 100
    { file_path := file_path, chunks_parsed := some chunks.length,
      vectors_upserted := some result.upserted,
      vectors_failed := some result.failed,
      success := true, error := none }

/-- C10: `process_single_file` reports `success = true` exactly when parsing
and upsert returned without raising — even when every vector failed to be
stored — carrying the counts and no error; when parsing raised, it reports
`success = false` with the error message and no counts. -/
theorem C10_process_single_file_success_reporting {E : Type}
    (env : HandlerEnv E) (file_path : String)
    (parseOutcome : Except String (List Doc)) :
    (∀ chunks, parseOutcome = .ok chunks →
      processSingleFile env file_path parseOutcome
        = { file_path := file_path,
            chunks_parsed := some chunks.length,
            vectors_upserted := some (upsertDocuments env chunks 100).upserted,
            vectors_failed := some (upsertDocuments env chunks 100).failed,
            success := true, error := none })
    ∧ (∀ e, parseOutcome = .error e →
      processSingleFile env file_path parseOutcome
        = { file_path := file_path, chunks_parsed := none,
            vectors_upserted := none, vectors_failed := none,
            success := false, error := some e }) := by
  constructor
  · intro chunks h; subst h; rfl
  · intro e h; subst h; rfl

/-- A handler environment whose store call always fails. -/
def alwaysFailStoreEnv : HandlerEnv Unit where
  embed := fun _ => .ok ()
  store := fun _ => .error "store down"
  md5hex := fun _ => "0123456789abcdef0123456789abcdef"

theorem C10_process_single_file_success_reporting_witness :
    (processSingleFile alwaysFailStoreEnv "f.txt" (.ok [helloDoc])).success = true
    ∧ (processSingleFile alwaysFailStoreEnv "f.txt" (.ok [helloDoc])).vectors_upserted = some 0
    ∧ (processSingleFile alwaysFailStoreEnv "f.txt" (.ok [helloDoc])).vectors_failed = some 1
    ∧ (processSingleFile alwaysFailStoreEnv "f.txt" (.error "corrupt file")).success = false
    ∧ (processSingleFile alwaysFailStoreEnv "f.txt" (.error "corrupt file")).error = some "corrupt file" := by
  have hok := (C10_process_single_file_success_reporting alwaysFailStoreEnv
    "f.txt" (.ok [helloDoc])).1 [helloDoc] rfl
  have herr := (C10_process_single_file_success_reporting alwaysFailStoreEnv
    "f.txt" (.error "corrupt file")).2 "corrupt file" rfl
  refine ⟨by rw [hok], by rw [hok]; decide, by rw [hok]; decide,
    by rw [herr], by rw [herr]⟩

/-! ## Retrieval/answer orchestrator (src/src/chatbot/rag_chatbot.py) -/

/-- A search result as returned by `PineconeHandler.search` and consumed by
`RAGChatbot`; the similarity score type is abstract (a Python float). -/
structure SearchResult (Score : Type) where
  content : String
  score : Score
  metadata : ChunkMeta
  id : String

/-- One cited source of a chat answer (rag_chatbot.py lines 110-118). -/
structure SourceRef (Score : Type) where
  source : String
  score : Score
  chunk_id : Nat

/-- The `ChatResult` dict (rag_chatbot.py lines 95-101 and 120-125). -/
structure ChatResult (Score : Type) where
  query : String
  response : String
  sources : List (SourceRef Score)
  context_used : String

/-- The opaque collaborators of `RAGChatbot.chat`: `search` models
`self.search_relevant_docs` (the vector-index query through
`DocumentProcessor.search_documents`), `complete` models the OpenAI chat
completion call inside `generate_response` taking the system prompt and the
user message (it may raise), and `fmtScore` models the Python float
formatting `f"{score:.3f}"` used in `build_context`. -/
structure ChatEnv (Score : Type) where
  search : String → List (SearchResult Score)
  complete : String → String → Except String String
  fmtScore : Score → String

/-- The fixed system prompt (rag_chatbot.py lines 24-30). -/
def systemPrompt : String :=
  "You are an expert assistant for Revenue Cycle Management (RCM) and Intracare policies. \n\nUse the provided context documents to answer questions accurately. If the context doesn't contain enough information to answer the question, say so clearly.\n\nAlways cite which document or section your answer comes from when possible.\n\nBe helpful, professional, and concise in your responses."

/-- Model of `RAGChatbot.build_context` (rag_chatbot.py lines 42-57). -/
def buildContext {Score : Type} (env : ChatEnv Score)
    (search_results : List (SearchResult Score)) : String :=
  if search_results.isEmpty then "No relevant documents found."
  else
    String.intercalate "\n\n---\n\n"
      ((enumFrom 1 search_results).map fun ir =>
        "Document " ++ toString ir.1 ++ " (Score: " ++ env.fmtScore ir.2.score
          ++ ", Source: " ++ ir.2.metadata.source.getD "Unknown source"
          ++ "):\n" ++ ir.2.content)

/-- The user message assembled by `generate_response`
(rag_chatbot.py lines 61-74). -/
def userMessage (context query : String) : String :=
  "Context documents:\n" ++ context ++ "\n\n---\n\nQuestion: " ++ query
    ++ "\n\nPlease answer based on the context provided above."

/-- Model of `RAGChatbot.generate_response` (rag_chatbot.py lines 59-86):
invoke the completion call; a raised error degrades to the apologetic
string. -/
def generateResponse {Score : Type} (env : ChatEnv Score)
    (query context : String) : String :=
  match env.complete systemPrompt (userMessage context query) with
  | .ok response => response
  | .error e => "Sorry, I encountered an error generating a response: " ++ e

/-- The canned response for an empty search (rag_chatbot.py line 98). -/
def noDocsResponse : String :=
  "I couldn't find any relevant documents to answer your question. Please try rephrasing or asking about a different topic."

/-- Model of `RAGChatbot.chat` (rag_chatbot.py lines 88-125). -/
def chat {Score : Type} (env : ChatEnv Score) (query : String) :
    ChatResult Score :=
  let search_results := env.search query
  if search_results.isEmpty then
    { query := query, response := noDocsResponse, sources := [],
      context_used := "" }
  else
    let context := buildContext env search_results
    let response := generateResponse env query context
    let sources := search_results.map fun r =>
      { source := r.metadata.source.getD "Unknown",
        score := r.score,
        chunk_id := r.metadata.chunk_id.getD 0 : SourceRef Score }
    { query := query, response := response, sources := sources,
      context_used := context }

/-- C7: when the search step returns no results, `chat` returns the canned
"no relevant documents" `ChatResult` with empty sources, and the completion
call is never invoked: the result is identical under every completion
oracle. -/
theorem C7_chat_empty_search_short_circuit {Score : Type}
    (env : ChatEnv Score) (query : String) (hempty : env.search query = []) :
    chat env query
        = { query := query, response := noDocsResponse, sources := [],
            context_used := "" }
    ∧ ∀ complete' : String → String → Except String String,
        chat { env with complete := complete' } query = chat env query := by
  have hcanned : ∀ env' : ChatEnv Score, env'.search query = [] →
      chat env' query
        = { query := query, response := noDocsResponse, sources := [],
            context_used := "" } := by
    intro env' h
    unfold chat
    rw [h]
    rfl
  exact ⟨hcanned env hempty,
    fun c' => (hcanned { env with complete := c' } hempty).trans
      (hcanned env hempty).symm⟩

/-- A chat environment whose search finds nothing. -/
def emptySearchEnv : ChatEnv Unit where
  search := fun _ => []
  complete := fun _ _ => .ok "ignored"
  fmtScore := fun _ => "0.000"

theorem C7_chat_empty_search_short_circuit_witness :
    emptySearchEnv.search "what is RCM" = []
    ∧ chat emptySearchEnv "what is RCM"
      = { query := "what is RCM", response := noDocsResponse, sources := [],
          context_used := "" } :=
  ⟨rfl,
    (C7_chat_empty_search_short_circuit emptySearchEnv "what is RCM" rfl).1⟩

end IntracareRcm
